import Mathlib

/-!
Verification of the Gen I save-file core ("Pkmn Red Save Genie").

Shallow embedding of the C++ core (`SaveStructure.hpp` / `SaveStructure.cpp`
and the Hall-of-Fame scanner of `ReadOnlyData.cpp`).

Modelling conventions:
* A byte buffer (`std::vector<u8>`) is a `List Nat`; each stored byte is kept
  below 256 by the write primitives (`static_cast<u8>` becomes `% 256`).
* C++ `char` values are modelled as their ASCII codes (`Nat`): 0 is the C++
  `NUL`, 32 is a space, 63 is the `?` placeholder, 65 is `A`, 48 is `0`.
* Exceptions become explicit error values.  Read-only member functions are
  `Bytes → Except Err α`.  Mutating member functions are given
  state-and-exception semantics `Bytes → Bytes × Option Err`: the returned
  buffer is the buffer content after the call even when the call throws,
  so partial mutation before a throw is observable, exactly as for the
  in-place `std::vector` mutation of the source.
* `std::size_t` indices become `Nat` (the `end < off` overflow guard of
  `RequireRange` is vacuous for `Nat` addition); C++ `int` indices that can
  be negative (box indices) become `Int`.
-/

/-- Error taxonomy.  The C++ code distinguishes these by exception class and
message: `outOfRange` is `std::out_of_range` thrown by `SaveBuffer`
(`"offset out of range"`, `"range out of range"`, `"bitIndex must be 0..7"`),
`invalidIndex` is the `std::out_of_range` thrown by the `Gen1Layout` box-index
guards (`"box index must be 1..12"`), `valueOutOfRange` is the
`std::out_of_range` thrown by `BcdCodec` value guards, and `invalidArgument`
is `std::invalid_argument` (checksum `end < start`, bad bank index). -/
inductive Err where
  | outOfRange
  | invalidIndex
  | valueOutOfRange
  | invalidArgument
deriving DecidableEq, Repr

/-- `SaveBuffer::Bytes`, a `std::vector<u8>`. -/
abbrev Bytes := List Nat

/-- `bytes_[off]` for an in-range `off` (out-of-range default is never used
by the embedded operations, which range-check first). -/
def byteAt (b : Bytes) (off : Nat) : Nat := b.getD off 0

/-- `SaveBuffer::RequireRange`.  The C++ guard `end < off` protects against
`size_t` wrap-around of `off + len`; `Nat` addition cannot wrap, so only the
two remaining comparisons are kept. -/
def RequireRange (b : Bytes) (off len : Nat) : Except Err Unit :=
  if len = 0 then .ok ()
  else if b.length < off then .error .outOfRange
  else if b.length < off + len then .error .outOfRange
  else .ok ()

/-- `SaveBuffer::ReadU8`. -/
def ReadU8 (b : Bytes) (off : Nat) : Except Err Nat :=
  match RequireRange b off 1 with
  | .error e => .error e
  | .ok _ => .ok (byteAt b off)

/-- `SaveBuffer::ReadU16LE`: `bytes[off] | (bytes[off+1] << 8)`; for bytes
below 256 the bitwise-or of the disjoint halves is addition. -/
def ReadU16LE (b : Bytes) (off : Nat) : Except Err Nat :=
  match RequireRange b off 2 with
  | .error e => .error e
  | .ok _ => .ok (byteAt b off + byteAt b (off + 1) * 256)

/-- `SaveBuffer::ReadU24BE`: `(bytes[off] << 16) | (bytes[off+1] << 8) | bytes[off+2]`. -/
def ReadU24BE (b : Bytes) (off : Nat) : Except Err Nat :=
  match RequireRange b off 3 with
  | .error e => .error e
  | .ok _ => .ok (byteAt b off * 65536 + byteAt b (off + 1) * 256 + byteAt b (off + 2))

/-- `SaveBuffer::WriteU8` with state-and-exception semantics.
`static_cast<u8>` of the stored value is `% 256`. -/
def WriteU8Run (b : Bytes) (off v : Nat) : Bytes × Option Err :=
  match RequireRange b off 1 with
  | .error e => (b, some e)
  | .ok _ => (b.set off (v % 256), none)

/-- `SaveBuffer::WriteU16LE`: one range check for both bytes, then
`bytes[off] = v & 0xFF; bytes[off+1] = (v >> 8) & 0xFF`. -/
def WriteU16LERun (b : Bytes) (off v : Nat) : Bytes × Option Err :=
  match RequireRange b off 2 with
  | .error e => (b, some e)
  | .ok _ => ((b.set off (v % 256)).set (off + 1) (v / 256 % 256), none)

/-- `SaveBuffer::WriteU24BE`: one range check for the three bytes, then
`bytes[off] = (v >> 16) & 0xFF; bytes[off+1] = (v >> 8) & 0xFF; bytes[off+2] = v & 0xFF`. -/
def WriteU24BERun (b : Bytes) (off v : Nat) : Bytes × Option Err :=
  match RequireRange b off 3 with
  | .error e => (b, some e)
  | .ok _ =>
    (((b.set off (v / 65536 % 256)).set (off + 1) (v / 256 % 256)).set (off + 2) (v % 256), none)

/-- `SaveBuffer::GetBit`: bit-index guard first (its
`std::out_of_range("bitIndex must be 0..7")` is the same error class as the
range check), then a 1-byte range check, then `(byte & (1 << bit)) != 0`. -/
def GetBit (b : Bytes) (byteOff bitIndex : Nat) : Except Err Bool :=
  if 8 ≤ bitIndex then .error .outOfRange
  else
    match RequireRange b byteOff 1 with
    | .error e => .error e
    | .ok _ => .ok ((byteAt b byteOff).testBit bitIndex)

/-- `SaveBuffer::SetBit`: `byte |= mask` or `byte &= ~mask` (`~mask` on a
`u8` power-of-two mask is `255 ^^^ mask`). -/
def SetBitRun (b : Bytes) (byteOff bitIndex : Nat) (value : Bool) : Bytes × Option Err :=
  if 8 ≤ bitIndex then (b, some .outOfRange)
  else
    match RequireRange b byteOff 1 with
    | .error e => (b, some e)
    | .ok _ =>
      if value then (b.set byteOff (byteAt b byteOff ||| 2 ^ bitIndex), none)
      else (b.set byteOff (byteAt b byteOff &&& (255 ^^^ 2 ^ bitIndex)), none)

/-- `SaveBuffer::Slice`: range check, then the bytes `[off, off+len)`. -/
def Slice (b : Bytes) (off len : Nat) : Except Err Bytes :=
  match RequireRange b off len with
  | .error e => .error e
  | .ok _ => .ok ((b.drop off).take len)

/-! `Gen1Layout` constants (`SaveStructure.hpp`). -/

def ExpectedSize : Nat := 0x8000
def Bank2Base : Nat := 0x4000
def Bank3Base : Nat := 0x6000
def HallOfFameOff : Nat := 0x0598
def HallOfFameLen : Nat := 0x12C0
def HallOfFameMaxRecords : Nat := 50
def HallOfFameRecordSize : Nat := 0x0060
def HallOfFameMonsPerRecord : Nat := 6
def HallOfFameMonEntrySize : Nat := 0x0010
def HallOfFameRecordCountOff : Nat := 0x284E
def MainChecksumStart : Nat := 0x2598
def MainChecksumEnd : Nat := 0x3522
def MainChecksumOff : Nat := 0x3523
def BoxBlockSize : Nat := 0x0462
def Box1Off : Nat := 0x4000
def Bank2AllChecksumOff : Nat := 0x5A4C
def Bank2BoxChecksumsOff : Nat := 0x5A4D
def Box7Off : Nat := 0x6000
def Bank3AllChecksumOff : Nat := 0x7A4C
def Bank3BoxChecksumsOff : Nat := 0x7A4D

/-- `Gen1Layout::BoxBaseOffsetByIndex1to12`.  The C++ index is an `int`, so
it is modelled as `Int`; the guard throws
`std::out_of_range("box index must be 1..12")` before anything else. -/
def BoxBaseOffsetByIndex1to12 (i : Int) : Except Err Nat :=
  if i < 1 ∨ 12 < i then .error .invalidIndex
  else if i ≤ 6 then .ok (Box1Off + (i - 1).toNat * BoxBlockSize)
  else .ok (Box7Off + (i - 7).toNat * BoxBlockSize)

/-- `Gen1Layout::BankAllChecksumOffsetForBoxIndex1to12`. -/
def BankAllChecksumOffsetForBoxIndex1to12 (i : Int) : Except Err Nat :=
  if i < 1 ∨ 12 < i then .error .invalidIndex
  else if i ≤ 6 then .ok Bank2AllChecksumOff
  else .ok Bank3AllChecksumOff

/-- `Gen1Layout::BankPerBoxChecksumsBaseOffsetForBoxIndex1to12`. -/
def BankPerBoxChecksumsBaseOffsetForBoxIndex1to12 (i : Int) : Except Err Nat :=
  if i < 1 ∨ 12 < i then .error .invalidIndex
  else if i ≤ 6 then .ok Bank2BoxChecksumsOff
  else .ok Bank3BoxChecksumsOff

/-! `Gen1TextCodec`.  Characters are ASCII codes as `Nat`. -/

/-- `Gen1TextCodec::ByteToAscii`: `0x80..0x99 → A..Z` (65..90),
`0xA0..0xA9 → 0..9` (48..57), `0x7F →` space (32), `0x50 → NUL` (0),
anything else `→ ?` (63). -/
def ByteToAscii (x : Nat) : Nat :=
  if 0x80 ≤ x ∧ x ≤ 0x99 then 65 + (x - 0x80)
  else if 0xA0 ≤ x ∧ x ≤ 0xA9 then 48 + (x - 0xA0)
  else if x = 0x7F then 32
  else if x = 0x50 then 0
  else 63

/-- `Gen1TextCodec::AsciiToByte`: lowercase (97..122) is first normalized to
uppercase, then `A..Z → 0x80..`, `0..9 → 0xA0..`, space `→ 0x7F`, and any
unsupported character also falls back to `0x7F`. -/
def AsciiToByte (c : Nat) : Nat :=
  let c := if 97 ≤ c ∧ c ≤ 122 then c - 97 + 65 else c
  if 65 ≤ c ∧ c ≤ 90 then 0x80 + (c - 65)
  else if 48 ≤ c ∧ c ≤ 57 then 0xA0 + (c - 48)
  else if c = 32 then 0x7F
  else 0x7F

/-- The character-accumulation loop of `Gen1TextCodec::DecodeName`:
decode byte by byte, stopping at the first byte that decodes to `NUL`. -/
def decodeLoop : Bytes → List Nat
  | [] => []
  | x :: xs => if ByteToAscii x = 0 then [] else ByteToAscii x :: decodeLoop xs

/-- `Gen1TextCodec::DecodeName`: slice the field (this range check can
throw), then decode up to the terminator. -/
def DecodeName (b : Bytes) (off len : Nat) : Except Err (List Nat) :=
  match Slice b off len with
  | .error e => .error e
  | .ok bytes => .ok (decodeLoop bytes)

/-- `Gen1TextCodec::EncodeName`.  The staging vector `out` starts as `len`
terminator bytes, the first `n = min (name.length) (len - 1)` are the encoded
characters, and `out[n] = 0x50` is already true of the padding; the single
range check happens before the `std::copy` into the buffer, so a failed
encode mutates nothing. -/
def EncodeNameRun (b : Bytes) (off len : Nat) (name : List Nat) : Bytes × Option Err :=
  if len = 0 then (b, none)
  else
    let n := min name.length (len - 1)
    let out := (name.take n).map AsciiToByte ++ List.replicate (len - n) 0x50
    match RequireRange b off len with
    | .error e => (b, some e)
    | .ok _ => (b.take off ++ out ++ b.drop (off + len), none)

/-! `BcdCodec`. -/

/-- `bcdDigit`: a nibble above 9 decodes as digit 0. -/
def bcdDigit (nibble : Nat) : Nat := if nibble ≤ 9 then nibble else 0

/-- `BcdCodec::ReadBcd3`: three range-checked byte reads, then six nibbles
(`(b >> 4) & 0xF` is `b / 16 % 16`, `b & 0xF` is `b % 16`). -/
def ReadBcd3 (b : Bytes) (off : Nat) : Except Err Nat :=
  match ReadU8 b off with
  | .error e => .error e
  | .ok b0 =>
    match ReadU8 b (off + 1) with
    | .error e => .error e
    | .ok b1 =>
      match ReadU8 b (off + 2) with
      | .error e => .error e
      | .ok b2 =>
        .ok (bcdDigit (b0 / 16 % 16) * 100000 + bcdDigit (b0 % 16) * 10000 +
             bcdDigit (b1 / 16 % 16) * 1000 + bcdDigit (b1 % 16) * 100 +
             bcdDigit (b2 / 16 % 16) * 10 + bcdDigit (b2 % 16))

/-- `BcdCodec::WriteBcd3`: the value guard throws before any write; then
three separate 1-byte writes (there is no up-front 3-byte range check, so a
later write can fail after an earlier one has already mutated the buffer). -/
def WriteBcd3Run (b : Bytes) (off v : Nat) : Bytes × Option Err :=
  if 999999 < v then (b, some .valueOutOfRange)
  else
    let b0 := (v / 100000 % 10) * 16 + v / 10000 % 10
    let b1 := (v / 1000 % 10) * 16 + v / 100 % 10
    let b2 := (v / 10 % 10) * 16 + v % 10
    match WriteU8Run b off b0 with
    | (b', some e) => (b', some e)
    | (b', none) =>
      match WriteU8Run b' (off + 1) b1 with
      | (b'', some e) => (b'', some e)
      | (b'', none) => WriteU8Run b'' (off + 2) b2

/-- `BcdCodec::ReadBcd2`.  The four digits sum to at most 9999, so the final
`static_cast<u16>` never truncates and is omitted. -/
def ReadBcd2 (b : Bytes) (off : Nat) : Except Err Nat :=
  match ReadU8 b off with
  | .error e => .error e
  | .ok b0 =>
    match ReadU8 b (off + 1) with
    | .error e => .error e
    | .ok b1 =>
      .ok (bcdDigit (b0 / 16 % 16) * 1000 + bcdDigit (b0 % 16) * 100 +
           bcdDigit (b1 / 16 % 16) * 10 + bcdDigit (b1 % 16))

/-- `BcdCodec::WriteBcd2`: value guard first, then two separate 1-byte
writes without an up-front 2-byte range check. -/
def WriteBcd2Run (b : Bytes) (off v : Nat) : Bytes × Option Err :=
  if 9999 < v then (b, some .valueOutOfRange)
  else
    let b0 := (v / 1000 % 10) * 16 + v / 100 % 10
    let b1 := (v / 10 % 10) * 16 + v % 10
    match WriteU8Run b off b0 with
    | (b', some e) => (b', some e)
    | (b', none) => WriteU8Run b' (off + 1) b1

/-! `Gen1Checksum`. -/

/-- The summation loop of `sumAndInvert8`, reading `cnt` bytes from `s` with
`ReadU8` (each read range-checked).  The `u32` accumulator cannot wrap for
the fixed checksum ranges, and `(sum % 2^32) % 256 = sum % 256` regardless,
so the sum is kept exact. -/
def sumRange (b : Bytes) (s cnt : Nat) : Except Err Nat :=
  match cnt with
  | 0 => .ok 0
  | n + 1 =>
    match ReadU8 b s with
    | .error e => .error e
    | .ok x =>
      match sumRange b (s + 1) n with
      | .error e => .error e
      | .ok r => .ok (x + r)

/-- `sumAndInvert8` (file-static helper in `SaveStructure.cpp`): guard
`end < start` with `std::invalid_argument`, sum the inclusive range, truncate
to the low byte and complement (`~low` on a `u8` is `255 - low`). -/
def sumAndInvert8 (b : Bytes) (startInclusive endInclusive : Nat) : Except Err Nat :=
  if endInclusive < startInclusive then .error .invalidArgument
  else
    match sumRange b startInclusive (endInclusive + 1 - startInclusive) with
    | .error e => .error e
    | .ok sum => .ok (255 - sum % 256)

/-- `Gen1Checksum::ComputeMain`. -/
def ComputeMain (b : Bytes) : Except Err Nat :=
  sumAndInvert8 b MainChecksumStart MainChecksumEnd

/-- `Gen1Checksum::ValidateMain`: compute the expected byte, read the stored
byte, compare. -/
def ValidateMain (b : Bytes) : Except Err Bool :=
  match ComputeMain b with
  | .error e => .error e
  | .ok expected =>
    match ReadU8 b MainChecksumOff with
    | .error e => .error e
    | .ok stored => .ok (expected == stored)

/-- `Gen1Checksum::FixMain`: compute, then write the stored byte. -/
def FixMainRun (b : Bytes) : Bytes × Option Err :=
  match ComputeMain b with
  | .error e => (b, some e)
  | .ok c => WriteU8Run b MainChecksumOff c

/-- The bank-all checksum byte the C++ code selects with
`(bankIndex2or3 == 2) ? Bank2AllChecksumOff : Bank3AllChecksumOff`. -/
def BankAllChecksumOffFor (bank : Int) : Nat :=
  if bank = 2 then Bank2AllChecksumOff else Bank3AllChecksumOff

/-- `Gen1Checksum::ComputeBankAll`: bank-index guard
(`std::invalid_argument`), then sum `start .. checksumOff-1`. -/
def ComputeBankAll (b : Bytes) (bank : Int) : Except Err Nat :=
  if bank ≠ 2 ∧ bank ≠ 3 then .error .invalidArgument
  else
    let start := if bank = 2 then Bank2Base else Bank3Base
    sumAndInvert8 b start (BankAllChecksumOffFor bank - 1)

/-- `Gen1Checksum::ValidateBankAll`: reads the stored byte first (no bank
guard on that read), then computes. -/
def ValidateBankAll (b : Bytes) (bank : Int) : Except Err Bool :=
  match ReadU8 b (BankAllChecksumOffFor bank) with
  | .error e => .error e
  | .ok stored =>
    match ComputeBankAll b bank with
    | .error e => .error e
    | .ok expected => .ok (stored == expected)

/-- `Gen1Checksum::FixBankAll`: compute (the `WriteU8` argument), then write. -/
def FixBankAllRun (b : Bytes) (bank : Int) : Bytes × Option Err :=
  match ComputeBankAll b bank with
  | .error e => (b, some e)
  | .ok c => WriteU8Run b (BankAllChecksumOffFor bank) c

/-- `Gen1Checksum::ComputeBox`: box base via the index-guarded layout helper,
then sum the `BoxBlockSize`-byte block. -/
def ComputeBox (b : Bytes) (i : Int) : Except Err Nat :=
  match BoxBaseOffsetByIndex1to12 i with
  | .error e => .error e
  | .ok start => sumAndInvert8 b start (start + BoxBlockSize - 1)

/-- `withinBank` of `ValidateBox`/`FixBox`: 0-based position of the box
inside its bank's checksum table. -/
def BoxWithinBank (i : Int) : Nat := (if i ≤ 6 then i - 1 else i - 7).toNat

/-- The offset of a box's stored checksum byte: per-bank table base plus the
box's 0-based position within its bank. -/
def BoxStoredChecksumOff (i : Int) : Nat :=
  (if i ≤ 6 then Bank2BoxChecksumsOff else Bank3BoxChecksumsOff) + BoxWithinBank i

/-- `Gen1Checksum::ValidateBox`: guarded table-base lookup, read the stored
byte, compute, compare. -/
def ValidateBox (b : Bytes) (i : Int) : Except Err Bool :=
  match BankPerBoxChecksumsBaseOffsetForBoxIndex1to12 i with
  | .error e => .error e
  | .ok tableBase =>
    match ReadU8 b (tableBase + BoxWithinBank i) with
    | .error e => .error e
    | .ok stored =>
      match ComputeBox b i with
      | .error e => .error e
      | .ok expected => .ok (stored == expected)

/-- `Gen1Checksum::FixBox`: guarded table-base lookup, compute (the
`WriteU8` argument), then write the table entry. -/
def FixBoxRun (b : Bytes) (i : Int) : Bytes × Option Err :=
  match BankPerBoxChecksumsBaseOffsetForBoxIndex1to12 i with
  | .error e => (b, some e)
  | .ok tableBase =>
    match ComputeBox b i with
    | .error e => (b, some e)
    | .ok c => WriteU8Run b (tableBase + BoxWithinBank i) c

/-! The Hall-of-Fame defensive scanner (`ReadOnlyData.cpp`). -/

/-- `IsLikelyValidGen1SpeciesId` (file-static in `ReadOnlyData.cpp`):
real species ids are 1..151. -/
def IsLikelyValidGen1SpeciesId (speciesId : Nat) : Bool :=
  decide (1 ≤ speciesId ∧ speciesId ≤ 151)

/-- `NameLooksReasonable` (file-static in `ReadOnlyData.cpp`): reject empty,
reject all-space, reject when at least half the characters are `?` (63). -/
def NameLooksReasonable (s : List Nat) : Bool :=
  if s.isEmpty then false
  else
    let q := s.countP (fun c => c == 63)
    let nonSpace := s.countP (fun c => c != 32)
    if nonSpace = 0 then false
    else decide (q * 2 < s.length)

/-- `HallOfFamePokemon` (its display-only `speciesName` string, a pure
lookup-table image of `speciesId`, is not modelled). -/
structure HallOfFamePokemon where
  speciesId : Nat
  level : Nat
  name : List Nat
deriving DecidableEq, Repr

/-- `HallOfFameEntry`. -/
structure HallOfFameEntry where
  entryIndex : Nat
  team : List HallOfFamePokemon
deriving DecidableEq, Repr

/-- The inner member-slot loop of `ReadOnlyData::GetHallOfFame` for one
record: slot index `j` counts up while `fuel` (the remaining iterations of
`for (j = 0; j < 6; ++j)`) counts down, and `acc` is `entry.team` built so
far.  Sentinel species (0 or 0xFF) `break`s keeping `acc`; a failed species,
level, or name check `break`s with a cleared team when `j = 0` and
`continue`s otherwise. -/
def scanSlots (b : Bytes) (recordOff j fuel : Nat) (acc : List HallOfFamePokemon) :
    Except Err (List HallOfFamePokemon) :=
  match fuel with
  | 0 => .ok acc
  | fuel + 1 =>
    let monOff := recordOff + j * HallOfFameMonEntrySize
    match RequireRange b monOff HallOfFameMonEntrySize with
    | .error e => .error e
    | .ok _ =>
      match ReadU8 b monOff with
      | .error e => .error e
      | .ok species =>
        match ReadU8 b (monOff + 1) with
        | .error e => .error e
        | .ok level =>
          if species = 0x00 ∨ species = 0xFF then .ok acc
          else if IsLikelyValidGen1SpeciesId species = false then
            if j = 0 then .ok [] else scanSlots b recordOff (j + 1) fuel acc
          else if level < 1 ∨ 100 < level then
            if j = 0 then .ok [] else scanSlots b recordOff (j + 1) fuel acc
          else
            match DecodeName b (monOff + 2) 0x0B with
            | .error e => .error e
            | .ok nm =>
              if NameLooksReasonable nm = false then
                if j = 0 then .ok [] else scanSlots b recordOff (j + 1) fuel acc
              else
                scanSlots b recordOff (j + 1) fuel (acc ++ [⟨species, level, nm⟩])

/-- The outer record loop of `ReadOnlyData::GetHallOfFame`: record index `i`
counts up while `fuel` (remaining iterations of `for (i = 0; i < 50; ++i)`)
counts down; `acc` is the `valid` vector.  A record is appended, tagged with
`entryIndex = i + 1`, exactly when its scanned team is non-empty. -/
def scanRecords (b : Bytes) (i fuel : Nat) (acc : List HallOfFameEntry) :
    Except Err (List HallOfFameEntry) :=
  match fuel with
  | 0 => .ok acc
  | fuel + 1 =>
    let recordOff := HallOfFameOff + i * HallOfFameRecordSize
    match RequireRange b recordOff HallOfFameRecordSize with
    | .error e => .error e
    | .ok _ =>
      match scanSlots b recordOff 0 HallOfFameMonsPerRecord [] with
      | .error e => .error e
      | .ok team =>
        if team.isEmpty then scanRecords b (i + 1) fuel acc
        else scanRecords b (i + 1) fuel (acc ++ [⟨i + 1, team⟩])

/-- The renumbering loops of `GetHallOfFame`: entry `k` (0-based) of the
window gets `entryIndex = k + 1`; `renumberFrom 1` is both the in-place
renumbering of the `valid.size() <= countHint` branch and the
`out.size() + 1` tagging of the windowed branch. -/
def renumberFrom (k : Nat) : List HallOfFameEntry → List HallOfFameEntry
  | [] => []
  | e :: rest => ⟨k, e.team⟩ :: renumberFrom (k + 1) rest

/-- `ReadOnlyData::GetHallOfFame`: read the count hint from bank 1 (a
range-checked read that can throw), clamp it (`std::clamp(raw, 0, 50)` on a
`u8`-sourced non-negative `int` is `min raw 50`), range-check the whole
Hall-of-Fame block, scan all 50 records, then window: hint 0 gives the empty
list; otherwise all records renumbered when they fit in the hint, else the
last `countHint` of them renumbered. -/
def GetHallOfFame (b : Bytes) : Except Err (List HallOfFameEntry) :=
  match ReadU8 b HallOfFameRecordCountOff with
  | .error e => .error e
  | .ok rawCountHint =>
    let countHint := min rawCountHint HallOfFameMaxRecords
    match RequireRange b HallOfFameOff HallOfFameLen with
    | .error e => .error e
    | .ok _ =>
      match scanRecords b 0 HallOfFameMaxRecords [] with
      | .error e => .error e
      | .ok valid =>
        if countHint = 0 then .ok []
        else if valid.length ≤ countHint then .ok (renumberFrom 1 valid)
        else .ok (renumberFrom 1 (valid.drop (valid.length - countHint)))

/-! Specification-side reference definitions (spec §4.5), used to state the
refinement claims about the scanner. -/

/-- The spec's per-record walk (spec §4.5 steps 1-4), written from the
spec's wording: read the slot's species/level/name; a sentinel species byte
stops the record's remaining slots; a slot that fails *any* of the species,
level, or name checks aborts the record with no members when it is slot 0
and is skipped otherwise; a valid slot's member is collected. -/
def specTeamWalk (b : Bytes) (recordOff j fuel : Nat) : List HallOfFamePokemon :=
  match fuel with
  | 0 => []
  | fuel + 1 =>
    let monOff := recordOff + j * HallOfFameMonEntrySize
    let species := byteAt b monOff
    let level := byteAt b (monOff + 1)
    let nm := decodeLoop ((b.drop (monOff + 2)).take 0x0B)
    if species = 0x00 ∨ species = 0xFF then []
    else if IsLikelyValidGen1SpeciesId species = false ∨ level < 1 ∨ 100 < level ∨
        NameLooksReasonable nm = false then
      if j = 0 then [] else specTeamWalk b recordOff (j + 1) fuel
    else ⟨species, level, nm⟩ :: specTeamWalk b recordOff (j + 1) fuel

/-- The team the scanner accumulates for 0-based record `i`. -/
def teamAtRecord (b : Bytes) (i : Nat) : List HallOfFamePokemon :=
  specTeamWalk b (HallOfFameOff + i * HallOfFameRecordSize) 0 HallOfFameMonsPerRecord

/-- The list of valid records, in scan order, each tagged with its 1-based
record index: the value of the scanner's `valid` vector for records
`i, i+1, ..., i+fuel-1`. -/
def hofValidList (b : Bytes) (i fuel : Nat) : List HallOfFameEntry :=
  match fuel with
  | 0 => []
  | fuel + 1 =>
    if (teamAtRecord b i).isEmpty then hofValidList b (i + 1) fuel
    else ⟨i + 1, teamAtRecord b i⟩ :: hofValidList b (i + 1) fuel

/-- The exact value of the checksum summation loop when every read is in
range: the sum of the `cnt` bytes starting at `s`. -/
def rangeSum (b : Bytes) (s cnt : Nat) : Nat :=
  match cnt with
  | 0 => 0
  | n + 1 => byteAt b s + rangeSum b (s + 1) n

/-! Character-set predicates used to state the text-codec round trip. -/

/-- The claim's supported character set: uppercase letters, digits, space,
plus lowercase letters (which the encoder case-normalizes). -/
def isSupportedChar (c : Nat) : Prop :=
  (65 ≤ c ∧ c ≤ 90) ∨ (97 ≤ c ∧ c ≤ 122) ∨ (48 ≤ c ∧ c ≤ 57) ∨ c = 32

/-- Case normalization as performed by `AsciiToByte`: lowercase maps to
uppercase, everything else is unchanged. -/
def normalizeChar (c : Nat) : Nat :=
  if 97 ≤ c ∧ c ≤ 122 then c - 97 + 65 else c

/-! Helper lemmas about the buffer primitives. -/

lemma requireRange_ok {b : Bytes} {off len : Nat} (h : off + len ≤ b.length) :
    RequireRange b off len = .ok () := by
  unfold RequireRange
  split_ifs <;> first | rfl | omega

lemma requireRange_err {b : Bytes} {off len : Nat} (hlen : 0 < len)
    (h : b.length < off + len) : RequireRange b off len = .error .outOfRange := by
  unfold RequireRange
  split_ifs <;> first | rfl | omega

lemma byteAt_set_self {b : Bytes} {i : Nat} (h : i < b.length) (v : Nat) :
    byteAt (b.set i v) i = v := by
  simp [byteAt, List.getD_eq_getElem?_getD, List.getElem?_set_self, h]

lemma byteAt_set_ne {b : Bytes} {i j : Nat} (h : i ≠ j) (v : Nat) :
    byteAt (b.set i v) j = byteAt b j := by
  simp [byteAt, List.getD_eq_getElem?_getD, List.getElem?_set_ne h]

lemma readU8_ok {b : Bytes} {off : Nat} (h : off < b.length) :
    ReadU8 b off = .ok (byteAt b off) := by
  unfold ReadU8
  rw [requireRange_ok (by omega)]

lemma writeU8Run_ok {b : Bytes} {off : Nat} (h : off < b.length) (v : Nat) :
    WriteU8Run b off v = (b.set off (v % 256), none) := by
  unfold WriteU8Run
  rw [requireRange_ok (by omega)]

lemma slice_ok {b : Bytes} {off len : Nat} (h : off + len ≤ b.length) :
    Slice b off len = .ok ((b.drop off).take len) := by
  unfold Slice
  rw [requireRange_ok h]

lemma decodeName_ok {b : Bytes} {off len : Nat} (h : off + len ≤ b.length) :
    DecodeName b off len = .ok (decodeLoop ((b.drop off).take len)) := by
  unfold DecodeName
  rw [slice_ok h]

/-- Claim C10: zero-length accesses never fail regardless of offset: for
every buffer and every offset (including offsets strictly greater than the
buffer size) the range check with length 0 succeeds, and `Slice(off, 0)`
returns an empty byte sequence without raising any error. -/
theorem zero_length_access_ok (b : Bytes) (off : Nat) :
    RequireRange b off 0 = .ok () ∧ Slice b off 0 = .ok [] :=
  ⟨rfl, rfl⟩

/-- Counterexample to claim C4 as stated: with buffer `[]` (size 0),
offset 1 and length 0 we have `offset + length > size`, yet `Slice` does not
fail with OutOfRange - it succeeds with the empty byte sequence. -/
theorem slice_zero_length_counterexample :
    (([] : Bytes)).length < 1 + 0 ∧ Slice ([] : Bytes) 1 0 = .ok [] :=
  ⟨by decide, rfl⟩

/-- Claim C4 (amended): for every buffer, offset and *positive* access
length with `offset + length > size`, every Bounded Buffer accessor fails
with OutOfRange and the buffer is unchanged (the fixed-width accessors have
lengths 1, 2 and 3; a zero-length `slice` instead succeeds).  The mutating
accessors return the unchanged buffer alongside the error; the read
accessors never mutate by construction. -/
theorem accessors_fail_out_of_range (b : Bytes) (off len v bit : Nat) (val : Bool) :
    (b.length < off + 1 →
      ReadU8 b off = .error .outOfRange ∧
      WriteU8Run b off v = (b, some .outOfRange) ∧
      GetBit b off bit = .error .outOfRange ∧
      SetBitRun b off bit val = (b, some .outOfRange)) ∧
    (b.length < off + 2 →
      ReadU16LE b off = .error .outOfRange ∧
      WriteU16LERun b off v = (b, some .outOfRange)) ∧
    (b.length < off + 3 →
      ReadU24BE b off = .error .outOfRange ∧
      WriteU24BERun b off v = (b, some .outOfRange)) ∧
    (0 < len → b.length < off + len → Slice b off len = .error .outOfRange) := by
  refine ⟨fun h => ⟨?_, ?_, ?_, ?_⟩, fun h => ⟨?_, ?_⟩, fun h => ⟨?_, ?_⟩, fun hl h => ?_⟩
  · unfold ReadU8; rw [requireRange_err (by omega) (by omega)]
  · unfold WriteU8Run; rw [requireRange_err (by omega) (by omega)]
  · unfold GetBit
    split_ifs with hb
    · rfl
    · rw [requireRange_err (by omega) (by omega)]
  · unfold SetBitRun
    by_cases hb : 8 ≤ bit
    · rw [if_pos hb]
    · rw [if_neg hb, requireRange_err (by omega) (by omega)]
  · unfold ReadU16LE; rw [requireRange_err (by omega) (by omega)]
  · unfold WriteU16LERun; rw [requireRange_err (by omega) (by omega)]
  · unfold ReadU24BE; rw [requireRange_err (by omega) (by omega)]
  · unfold WriteU24BERun; rw [requireRange_err (by omega) (by omega)]
  · unfold Slice; rw [requireRange_err hl (by omega)]

/-- Witness for the amended C4 at buffer `[7]`, offset 1, slice length 1. -/
theorem accessors_fail_out_of_range_witness :
    (([7] : Bytes).length < 1 + 1 ∧
      ReadU8 [7] 1 = .error .outOfRange ∧
      WriteU8Run [7] 1 9 = ([7], some .outOfRange) ∧
      GetBit [7] 1 0 = .error .outOfRange ∧
      SetBitRun [7] 1 0 true = ([7], some .outOfRange)) ∧
    (([7] : Bytes).length < 1 + 2 ∧
      ReadU16LE [7] 1 = .error .outOfRange ∧
      WriteU16LERun [7] 1 9 = ([7], some .outOfRange)) ∧
    (([7] : Bytes).length < 1 + 3 ∧
      ReadU24BE [7] 1 = .error .outOfRange ∧
      WriteU24BERun [7] 1 9 = ([7], some .outOfRange)) ∧
    (0 < 1 ∧ ([7] : Bytes).length < 1 + 1 ∧ Slice [7] 1 1 = .error .outOfRange) := by
  have h := accessors_fail_out_of_range [7] 1 1 9 0 true
  exact ⟨⟨by decide, h.1 (by decide)⟩, ⟨by decide, h.2.1 (by decide)⟩,
    ⟨by decide, h.2.2.1 (by decide)⟩, ⟨by decide, by decide, h.2.2.2 (by decide) (by decide)⟩⟩

/-- Claim C9: `BoxBaseOffsetByIndex1to12` maps indices 1..6 to
`Box1Off + (i-1)*BoxBlockSize` and indices 7..12 to
`Box7Off + (i-7)*BoxBlockSize` (so index 1 gives the first bank's box base
and index 7 gives the second bank's); every index outside 1..12 (in
particular 0 and 13) fails with InvalidIndex - the guard runs before any
buffer access (the function takes no buffer at all). -/
theorem box_base_offset_spec (i : Int) :
    (1 ≤ i → i ≤ 6 →
      BoxBaseOffsetByIndex1to12 i = .ok (Box1Off + (i - 1).toNat * BoxBlockSize)) ∧
    (7 ≤ i → i ≤ 12 →
      BoxBaseOffsetByIndex1to12 i = .ok (Box7Off + (i - 7).toNat * BoxBlockSize)) ∧
    (i < 1 ∨ 12 < i → BoxBaseOffsetByIndex1to12 i = .error .invalidIndex) ∧
    BoxBaseOffsetByIndex1to12 0 = .error .invalidIndex ∧
    BoxBaseOffsetByIndex1to12 13 = .error .invalidIndex ∧
    BoxBaseOffsetByIndex1to12 1 = .ok Box1Off ∧
    BoxBaseOffsetByIndex1to12 7 = .ok Box7Off := by
  refine ⟨fun h1 h6 => ?_, fun h7 h12 => ?_, fun h => ?_, rfl, rfl, rfl, rfl⟩
  · unfold BoxBaseOffsetByIndex1to12
    rw [if_neg (by omega), if_pos (by omega)]
  · unfold BoxBaseOffsetByIndex1to12
    rw [if_neg (by omega), if_neg (by omega)]
  · unfold BoxBaseOffsetByIndex1to12
    rw [if_pos h]

/-- Witness for C9 at box index 3. -/
theorem box_base_offset_spec_witness :
    (1 : Int) ≤ 3 ∧ (3 : Int) ≤ 6 ∧
      BoxBaseOffsetByIndex1to12 3 = .ok (Box1Off + ((3 : Int) - 1).toNat * BoxBlockSize) :=
  ⟨by decide, by decide, (box_base_offset_spec 3).1 (by decide) (by decide)⟩

/-- Counterexample to claim C8 as stated: the single-space decoded name
`[32]` is non-empty and none (so fewer than half) of its characters are the
placeholder `?` (63), yet `NameLooksReasonable` rejects it (the code also
requires a non-space character). -/
theorem name_heuristic_counterexample :
    ¬ (NameLooksReasonable [32] = true ↔
        ([32] : List Nat) ≠ [] ∧
        List.countP (fun c => c == 63) [32] * 2 < ([32] : List Nat).length) := by
  decide

/-- Claim C8 (amended): the scanner's name-plausibility heuristic accepts a
decoded name if and only if the name is non-empty, at least one of its
characters is not the space character, and fewer than half of its characters
are the decode-failure placeholder `?` (63). -/
theorem name_heuristic_iff (s : List Nat) :
    NameLooksReasonable s = true ↔
      s ≠ [] ∧ (∃ c ∈ s, c ≠ 32) ∧ s.countP (fun c => c == 63) * 2 < s.length := by
  by_cases he : s.isEmpty
  · rw [List.isEmpty_iff] at he
    subst he
    simp [NameLooksReasonable]
  · have hne : s ≠ [] := by simpa [List.isEmpty_iff] using he
    by_cases hn : s.countP (fun c => c != 32) = 0
    · have hnone : ¬ ∃ c ∈ s, c ≠ 32 := by
        rintro ⟨c, hc, hcne⟩
        have hz := List.countP_eq_zero.mp hn c hc
        simp at hz
        exact hcne hz
      simp [NameLooksReasonable, he, hn, hnone]
    · have hex : ∃ c ∈ s, c ≠ 32 := by
        obtain ⟨c, hc, hcp⟩ := List.countP_pos_iff.mp (Nat.pos_of_ne_zero hn)
        exact ⟨c, hc, by simpa using hcp⟩
      simp [NameLooksReasonable, he, hn, hex, hne]

/-! Packed-decimal codec lemmas. -/

lemma bcd_digit_pair {hi lo : Nat} (hhi : hi ≤ 9) (hlo : lo ≤ 9) :
    bcdDigit ((hi * 16 + lo) / 16 % 16) = hi ∧ bcdDigit ((hi * 16 + lo) % 16) = lo := by
  have h1 : (hi * 16 + lo) / 16 % 16 = hi := by omega
  have h2 : (hi * 16 + lo) % 16 = lo := by omega
  rw [h1, h2]
  unfold bcdDigit
  rw [if_pos hhi, if_pos hlo]
  exact ⟨rfl, rfl⟩

lemma writeBcd3Run_ok {b : Bytes} {off v : Nat} (hr : off + 3 ≤ b.length) (hv : v ≤ 999999) :
    WriteBcd3Run b off v =
      (((b.set off ((v / 100000 % 10) * 16 + v / 10000 % 10)).set (off + 1)
          ((v / 1000 % 10) * 16 + v / 100 % 10)).set (off + 2)
          ((v / 10 % 10) * 16 + v % 10), none) := by
  have m0 : ((v / 100000 % 10) * 16 + v / 10000 % 10) % 256 =
      (v / 100000 % 10) * 16 + v / 10000 % 10 := Nat.mod_eq_of_lt (by omega)
  have m1 : ((v / 1000 % 10) * 16 + v / 100 % 10) % 256 =
      (v / 1000 % 10) * 16 + v / 100 % 10 := Nat.mod_eq_of_lt (by omega)
  have m2 : ((v / 10 % 10) * 16 + v % 10) % 256 =
      (v / 10 % 10) * 16 + v % 10 := Nat.mod_eq_of_lt (by omega)
  unfold WriteBcd3Run
  rw [if_neg (by omega)]
  dsimp only
  rw [writeU8Run_ok (by omega), m0]
  dsimp only
  rw [writeU8Run_ok (by rw [List.length_set]; omega), m1]
  dsimp only
  rw [writeU8Run_ok (by rw [List.length_set, List.length_set]; omega), m2]

lemma writeBcd2Run_ok {b : Bytes} {off v : Nat} (hr : off + 2 ≤ b.length) (hv : v ≤ 9999) :
    WriteBcd2Run b off v =
      ((b.set off ((v / 1000 % 10) * 16 + v / 100 % 10)).set (off + 1)
          ((v / 10 % 10) * 16 + v % 10), none) := by
  have m0 : ((v / 1000 % 10) * 16 + v / 100 % 10) % 256 =
      (v / 1000 % 10) * 16 + v / 100 % 10 := Nat.mod_eq_of_lt (by omega)
  have m1 : ((v / 10 % 10) * 16 + v % 10) % 256 =
      (v / 10 % 10) * 16 + v % 10 := Nat.mod_eq_of_lt (by omega)
  unfold WriteBcd2Run
  rw [if_neg (by omega)]
  dsimp only
  rw [writeU8Run_ok (by omega), m0]
  dsimp only
  rw [writeU8Run_ok (by rw [List.length_set]; omega), m1]

/-- Claim C6: packed-decimal round trip and range failure.  Decoding 3 bytes
after encoding any `v ≤ 999999` at an in-range offset yields `v` (and
likewise 2 bytes for `v ≤ 9999`); encoding 1000000 into 3 bytes or 10000
into 2 bytes fails with ValueOutOfRange with the buffer untouched, for every
buffer and offset. -/
theorem bcd_roundtrip_and_range (b : Bytes) (off v : Nat) :
    (off + 3 ≤ b.length → v ≤ 999999 →
      ∃ b', WriteBcd3Run b off v = (b', none) ∧ ReadBcd3 b' off = .ok v) ∧
    (off + 2 ≤ b.length → v ≤ 9999 →
      ∃ b', WriteBcd2Run b off v = (b', none) ∧ ReadBcd2 b' off = .ok v) ∧
    WriteBcd3Run b off 1000000 = (b, some .valueOutOfRange) ∧
    WriteBcd2Run b off 10000 = (b, some .valueOutOfRange) := by
  refine ⟨fun hr hv => ?_, fun hr hv => ?_, rfl, rfl⟩
  · set x0 := (v / 100000 % 10) * 16 + v / 10000 % 10 with hx0
    set x1 := (v / 1000 % 10) * 16 + v / 100 % 10 with hx1
    set x2 := (v / 10 % 10) * 16 + v % 10 with hx2
    refine ⟨((b.set off x0).set (off + 1) x1).set (off + 2) x2,
      writeBcd3Run_ok hr hv, ?_⟩
    have hlen : (((b.set off x0).set (off + 1) x1).set (off + 2) x2).length = b.length := by
      simp
    have hb0 : byteAt (((b.set off x0).set (off + 1) x1).set (off + 2) x2) off = x0 := by
      rw [byteAt_set_ne (by omega), byteAt_set_ne (by omega),
        byteAt_set_self (by omega)]
    have hb1 : byteAt (((b.set off x0).set (off + 1) x1).set (off + 2) x2) (off + 1) = x1 := by
      rw [byteAt_set_ne (by omega)]
      rw [byteAt_set_self (by rw [List.length_set]; omega)]
    have hb2 : byteAt (((b.set off x0).set (off + 1) x1).set (off + 2) x2) (off + 2) = x2 := by
      rw [byteAt_set_self (by rw [List.length_set, List.length_set]; omega)]
    unfold ReadBcd3
    rw [readU8_ok (by omega : off < (((b.set off x0).set (off + 1) x1).set (off + 2) x2).length)]
    dsimp only
    rw [readU8_ok (by omega : off + 1 < (((b.set off x0).set (off + 1) x1).set (off + 2) x2).length)]
    dsimp only
    rw [readU8_ok (by omega : off + 2 < (((b.set off x0).set (off + 1) x1).set (off + 2) x2).length)]
    dsimp only
    rw [hb0, hb1, hb2, hx0, hx1, hx2]
    rw [(bcd_digit_pair (by omega) (by omega)).1, (bcd_digit_pair (by omega) (by omega)).2,
      (bcd_digit_pair (by omega) (by omega)).1, (bcd_digit_pair (by omega) (by omega)).2,
      (bcd_digit_pair (by omega) (by omega)).1, (bcd_digit_pair (by omega) (by omega)).2]
    congr 1
    have d1 : v / 10 / 10 = v / 100 := by rw [Nat.div_div_eq_div_mul]
    have d2 : v / 100 / 10 = v / 1000 := by rw [Nat.div_div_eq_div_mul]
    have d3 : v / 1000 / 10 = v / 10000 := by rw [Nat.div_div_eq_div_mul]
    have d4 : v / 10000 / 10 = v / 100000 := by rw [Nat.div_div_eq_div_mul]
    omega
  · set x0 := (v / 1000 % 10) * 16 + v / 100 % 10 with hx0
    set x1 := (v / 10 % 10) * 16 + v % 10 with hx1
    refine ⟨(b.set off x0).set (off + 1) x1, writeBcd2Run_ok hr hv, ?_⟩
    have hlen : ((b.set off x0).set (off + 1) x1).length = b.length := by simp
    have hb0 : byteAt ((b.set off x0).set (off + 1) x1) off = x0 := by
      rw [byteAt_set_ne (by omega), byteAt_set_self (by omega)]
    have hb1 : byteAt ((b.set off x0).set (off + 1) x1) (off + 1) = x1 := by
      rw [byteAt_set_self (by rw [List.length_set]; omega)]
    unfold ReadBcd2
    rw [readU8_ok (by omega : off < ((b.set off x0).set (off + 1) x1).length)]
    dsimp only
    rw [readU8_ok (by omega : off + 1 < ((b.set off x0).set (off + 1) x1).length)]
    dsimp only
    rw [hb0, hb1, hx0, hx1]
    rw [(bcd_digit_pair (by omega) (by omega)).1, (bcd_digit_pair (by omega) (by omega)).2,
      (bcd_digit_pair (by omega) (by omega)).1, (bcd_digit_pair (by omega) (by omega)).2]
    congr 1
    have d1 : v / 10 / 10 = v / 100 := by rw [Nat.div_div_eq_div_mul]
    have d2 : v / 100 / 10 = v / 1000 := by rw [Nat.div_div_eq_div_mul]
    omega

/-- Witness for C6 on a concrete 3-byte buffer, value 123456 / 42. -/
theorem bcd_roundtrip_and_range_witness :
    (0 + 3 ≤ ([0, 0, 0] : Bytes).length ∧ 123456 ≤ 999999 ∧
      ∃ b', WriteBcd3Run [0, 0, 0] 0 123456 = (b', none) ∧ ReadBcd3 b' 0 = .ok 123456) ∧
    (0 + 2 ≤ ([0, 0, 0] : Bytes).length ∧ 42 ≤ 9999 ∧
      ∃ b', WriteBcd2Run [0, 0, 0] 0 42 = (b', none) ∧ ReadBcd2 b' 0 = .ok 42) :=
  ⟨⟨by decide, by decide, (bcd_roundtrip_and_range [0, 0, 0] 0 123456).1 (by decide) (by decide)⟩,
   ⟨by decide, by decide, (bcd_roundtrip_and_range [0, 0, 0] 0 42).2.1 (by decide) (by decide)⟩⟩

/-! Failure-atomicity lemmas. -/

lemma requireRange_error_shape {b : Bytes} {off len : Nat} {e : Err}
    (h : RequireRange b off len = .error e) : e = .outOfRange := by
  unfold RequireRange at h
  split_ifs at h <;> cases h <;> rfl

lemma writeU8Run_snd (b : Bytes) (off v : Nat) :
    (WriteU8Run b off v).2 = none ∨ (WriteU8Run b off v).2 = some .outOfRange := by
  unfold WriteU8Run
  rcases hrr : RequireRange b off 1 with e | u
  · right
    rw [requireRange_error_shape hrr]
  · left
    rfl

/-- Counterexample to claim C5 as stated: `WriteBcd3` of 999999 at offset 0
of the 2-byte buffer `[0, 0]` fails (the third byte write is out of range),
yet the buffer left behind is `[153, 153]`, not `[0, 0]`: the first two
writes already mutated it (the packed-decimal encoders have no up-front
multi-byte range check). -/
theorem bcd_write_partial_mutation :
    (WriteBcd3Run [0, 0] 0 999999).2 = some Err.outOfRange ∧
    (WriteBcd3Run [0, 0] 0 999999).1 = [153, 153] ∧
    (WriteBcd3Run [0, 0] 0 999999).1 ≠ [0, 0] :=
  ⟨rfl, rfl, by decide⟩

/-- Claim C5 (amended): the 16-bit and 24-bit buffer writes and the name
encoder range-check their whole span before touching memory, so when they
fail (with any error) every byte of the buffer holds its previous value; the
packed-decimal encoders are atomic for their ValueOutOfRange failure (the
value guard precedes all writes), but not for an out-of-range span, which
mutates the in-bounds prefix before failing. -/
theorem multi_byte_write_atomic (b : Bytes) (off len v : Nat) (name : List Nat) :
    ((WriteU16LERun b off v).2.isSome = true → (WriteU16LERun b off v).1 = b) ∧
    ((WriteU24BERun b off v).2.isSome = true → (WriteU24BERun b off v).1 = b) ∧
    ((EncodeNameRun b off len name).2.isSome = true → (EncodeNameRun b off len name).1 = b) ∧
    ((WriteBcd3Run b off v).2 = some .valueOutOfRange → (WriteBcd3Run b off v).1 = b) ∧
    ((WriteBcd2Run b off v).2 = some .valueOutOfRange → (WriteBcd2Run b off v).1 = b) := by
  refine ⟨fun h => ?_, fun h => ?_, fun h => ?_, fun h => ?_, fun h => ?_⟩
  · unfold WriteU16LERun at h ⊢
    rcases hrr : RequireRange b off 2 with e | u
    · rfl
    · rw [hrr] at h
      simp at h
  · unfold WriteU24BERun at h ⊢
    rcases hrr : RequireRange b off 3 with e | u
    · rfl
    · rw [hrr] at h
      simp at h
  · unfold EncodeNameRun at h ⊢
    by_cases hl : len = 0
    · rw [if_pos hl] at h
      simp at h
    · rw [if_neg hl] at h ⊢
      dsimp only at h ⊢
      rcases hrr : RequireRange b off len with e | u
      · rfl
      · rw [hrr] at h
        simp at h
  · unfold WriteBcd3Run at h ⊢
    by_cases hv : 999999 < v
    · rw [if_pos hv]
    · rw [if_neg hv] at h ⊢
      dsimp only at h ⊢
      rcases h0 : WriteU8Run b off ((v / 100000 % 10) * 16 + v / 10000 % 10) with ⟨b1, e1⟩
      rw [h0] at h
      rcases e1 with - | e1
      · dsimp only at h
        rcases h1 : WriteU8Run b1 (off + 1) ((v / 1000 % 10) * 16 + v / 100 % 10) with ⟨b2, e2⟩
        rw [h1] at h
        rcases e2 with - | e2
        · dsimp only at h
          rcases writeU8Run_snd b2 (off + 2) ((v / 10 % 10) * 16 + v % 10) with hs | hs <;>
            rw [hs] at h <;> simp at h
        · dsimp only at h
          rcases writeU8Run_snd b1 (off + 1) ((v / 1000 % 10) * 16 + v / 100 % 10) with hs | hs <;>
            rw [h1] at hs <;> simp at hs
          rw [hs] at h
          exact absurd h (by decide)
      · dsimp only at h
        rcases writeU8Run_snd b off ((v / 100000 % 10) * 16 + v / 10000 % 10) with hs | hs <;>
          rw [h0] at hs <;> simp at hs
        rw [hs] at h
        exact absurd h (by decide)
  · unfold WriteBcd2Run at h ⊢
    by_cases hv : 9999 < v
    · rw [if_pos hv]
    · rw [if_neg hv] at h ⊢
      dsimp only at h ⊢
      rcases h0 : WriteU8Run b off ((v / 1000 % 10) * 16 + v / 100 % 10) with ⟨b1, e1⟩
      rw [h0] at h
      rcases e1 with - | e1
      · dsimp only at h
        rcases writeU8Run_snd b1 (off + 1) ((v / 10 % 10) * 16 + v % 10) with hs | hs <;>
          rw [hs] at h <;> simp at h
      · dsimp only at h
        rcases writeU8Run_snd b off ((v / 1000 % 10) * 16 + v / 100 % 10) with hs | hs <;>
          rw [h0] at hs <;> simp at hs
        rw [hs] at h
        exact absurd h (by decide)

/-- Witness for the amended C5: concrete failing writes on `[0]` leave it
unchanged. -/
theorem multi_byte_write_atomic_witness :
    ((WriteU16LERun [0] 0 7).2.isSome = true ∧ (WriteU16LERun [0] 0 7).1 = [0]) ∧
    ((WriteU24BERun [0] 0 7).2.isSome = true ∧ (WriteU24BERun [0] 0 7).1 = [0]) ∧
    ((EncodeNameRun [0] 0 2 [65]).2.isSome = true ∧ (EncodeNameRun [0] 0 2 [65]).1 = [0]) ∧
    ((WriteBcd3Run [0] 0 1000000).2 = some .valueOutOfRange ∧
      (WriteBcd3Run [0] 0 1000000).1 = [0]) ∧
    ((WriteBcd2Run [0] 0 10000).2 = some .valueOutOfRange ∧
      (WriteBcd2Run [0] 0 10000).1 = [0]) := by
  have h := multi_byte_write_atomic [0] 0 2 1000000 [65]
  have h2 := multi_byte_write_atomic [0] 0 2 10000 [65]
  exact ⟨⟨by decide, (multi_byte_write_atomic [0] 0 2 7 [65]).1 (by decide)⟩,
    ⟨by decide, (multi_byte_write_atomic [0] 0 2 7 [65]).2.1 (by decide)⟩,
    ⟨by decide, h.2.2.1 (by decide)⟩,
    ⟨by decide, h.2.2.2.1 (by decide)⟩,
    ⟨by decide, h2.2.2.2.2 (by decide)⟩⟩

/-! Text codec lemmas. -/

lemma byteAt_append_right {A rest : Bytes} {i : Nat} (h : A.length ≤ i) :
    byteAt (A ++ rest) i = byteAt rest (i - A.length) := by
  simp [byteAt, List.getD_eq_getElem?_getD, List.getElem?_append_right h]

lemma byteAt_append_left {A rest : Bytes} {i : Nat} (h : i < A.length) :
    byteAt (A ++ rest) i = byteAt A i := by
  simp [byteAt, List.getD_eq_getElem?_getD, List.getElem?_append_left h]

lemma byteAt_drop (l : Bytes) (n m : Nat) : byteAt (l.drop n) m = byteAt l (n + m) := by
  simp [byteAt, List.getD_eq_getElem?_getD, List.getElem?_drop]

lemma drop_append_of_length {A Z : Bytes} {off : Nat} (h : A.length = off) :
    (A ++ Z).drop off = Z := by
  subst h
  exact List.drop_left A Z

lemma byteToAscii_asciiToByte {c : Nat} (h : isSupportedChar c) :
    ByteToAscii (AsciiToByte c) = normalizeChar c ∧ ByteToAscii (AsciiToByte c) ≠ 0 := by
  unfold isSupportedChar at h
  constructor <;>
  · simp only [AsciiToByte, ByteToAscii, normalizeChar]
    split_ifs <;> omega

lemma decodeLoop_encoded (name : List Nat) (h : ∀ c ∈ name, isSupportedChar c) (k : Nat) :
    decodeLoop (name.map AsciiToByte ++ List.replicate (k + 1) 0x50) =
      name.map normalizeChar := by
  induction name with
  | nil => simp [List.replicate_succ, decodeLoop, ByteToAscii]
  | cons c cs ih =>
    have hc := byteToAscii_asciiToByte (h c (by simp))
    simp only [List.map_cons, List.cons_append, decodeLoop]
    rw [if_neg hc.2, hc.1]
    show normalizeChar c :: decodeLoop (List.map AsciiToByte cs ++ List.replicate (k + 1) 0x50) =
      normalizeChar c :: List.map normalizeChar cs
    rw [ih (fun x hx => h x (by simp [hx]))]

lemma encodeNameRun_ok {b : Bytes} {off len : Nat} (name : List Nat) (hl : len ≠ 0)
    (hr : off + len ≤ b.length) :
    EncodeNameRun b off len name =
      (b.take off ++ ((name.take (min name.length (len - 1))).map AsciiToByte ++
        List.replicate (len - min name.length (len - 1)) 0x50) ++ b.drop (off + len), none) := by
  unfold EncodeNameRun
  rw [if_neg hl]
  dsimp only
  rw [requireRange_ok hr]

/-- Claim C7: text-codec round trip.  For every buffer with an in-range
11-byte name field and every name of at most 10 supported characters
(uppercase, lowercase - case-normalized - digits, space), decoding the field
after encoding the name returns exactly the case-normalized name; and for
every name of length at least 10, the final byte of the encoded 11-byte
field is the terminator 0x50. -/
theorem text_codec_roundtrip (b : Bytes) (off : Nat) (name : List Nat)
    (hr : off + 11 ≤ b.length) :
    (name.length ≤ 10 → (∀ c ∈ name, isSupportedChar c) →
      ∃ b', EncodeNameRun b off 11 name = (b', none) ∧
        DecodeName b' off 11 = .ok (name.map normalizeChar)) ∧
    (10 ≤ name.length →
      (EncodeNameRun b off 11 name).2 = none ∧
      byteAt (EncodeNameRun b off 11 name).1 (off + 10) = 0x50) := by
  have hofflen : (b.take off).length = off := by
    rw [List.length_take]
    omega
  constructor
  · intro hlen hsup
    have he := encodeNameRun_ok name (show (11 : Nat) ≠ 0 by omega) hr
    have hn : min name.length (11 - 1) = name.length := by omega
    rw [hn, List.take_length] at he
    refine ⟨_, he, ?_⟩
    have houtlen : (name.map AsciiToByte ++ List.replicate (11 - name.length) 0x50).length = 11 := by
      simp
      omega
    have hblen : (b.take off ++ (name.map AsciiToByte ++
        List.replicate (11 - name.length) 0x50) ++ b.drop (off + 11)).length = b.length := by
      simp [hofflen]
      omega
    unfold DecodeName
    rw [slice_ok (by rw [hblen]; omega)]
    dsimp only
    rw [List.append_assoc, drop_append_of_length hofflen, List.take_left' houtlen]
    rw [show 11 - name.length = (10 - name.length) + 1 from by omega]
    rw [decodeLoop_encoded name hsup]
  · intro h10
    have he := encodeNameRun_ok name (show (11 : Nat) ≠ 0 by omega) hr
    have hn : min name.length (11 - 1) = 10 := by omega
    rw [hn] at he
    rw [he]
    refine ⟨rfl, ?_⟩
    have htk : ((name.take 10).map AsciiToByte).length = 10 := by
      simp
      omega
    have houtlen : ((name.take 10).map AsciiToByte ++
        List.replicate (11 - 10) 0x50).length = 11 := by
      rw [List.length_append, htk]
      simp
    show byteAt (b.take off ++ ((name.take 10).map AsciiToByte ++
        List.replicate (11 - 10) 0x50) ++ b.drop (off + 11)) (off + 10) = 0x50
    rw [List.append_assoc]
    rw [byteAt_append_right (by omega)]
    rw [show off + 10 - (b.take off).length = 10 from by omega]
    rw [byteAt_append_left (by omega)]
    rw [byteAt_append_right (by omega)]
    rw [htk]
    simp [byteAt]

/-- Witness for C7 with name "AB" (codes 65, 66) on a zero buffer of 11
bytes, and the length-10 name "ABCDEFGHIJ" for the terminator clause. -/
theorem text_codec_roundtrip_witness :
    (0 + 11 ≤ (List.replicate 11 0 : Bytes).length ∧ ([65, 66] : List Nat).length ≤ 10 ∧
      (∀ c ∈ ([65, 66] : List Nat), isSupportedChar c) ∧
      ∃ b', EncodeNameRun (List.replicate 11 0) 0 11 [65, 66] = (b', none) ∧
        DecodeName b' 0 11 = .ok (([65, 66] : List Nat).map normalizeChar)) ∧
    (10 ≤ ([65, 66, 67, 68, 69, 70, 71, 72, 73, 74] : List Nat).length ∧
      (EncodeNameRun (List.replicate 11 0) 0 11 [65, 66, 67, 68, 69, 70, 71, 72, 73, 74]).2 =
        none ∧
      byteAt (EncodeNameRun (List.replicate 11 0) 0 11
        [65, 66, 67, 68, 69, 70, 71, 72, 73, 74]).1 (0 + 10) = 0x50) := by
  constructor
  · refine ⟨by simp, by decide, by simp [isSupportedChar], ?_⟩
    exact (text_codec_roundtrip (List.replicate 11 0) 0 [65, 66] (by simp)).1
      (by decide) (by simp [isSupportedChar])
  · refine ⟨by decide, ?_⟩
    exact (text_codec_roundtrip (List.replicate 11 0) 0
      [65, 66, 67, 68, 69, 70, 71, 72, 73, 74] (by simp)).2 (by decide)

/-! Checksum lemmas. -/

lemma sumRange_eq {b : Bytes} : ∀ cnt s, s + cnt ≤ b.length →
    sumRange b s cnt = .ok (rangeSum b s cnt) := by
  intro cnt
  induction cnt with
  | zero => intro s h; rfl
  | succ n ih =>
    intro s h
    unfold sumRange rangeSum
    rw [readU8_ok (by omega)]
    dsimp only
    rw [ih (s + 1) (by omega)]

lemma rangeSum_set_outside {b : Bytes} {t x : Nat} : ∀ cnt s, s + cnt ≤ t →
    rangeSum (b.set t x) s cnt = rangeSum b s cnt := by
  intro cnt
  induction cnt with
  | zero => intro s h; rfl
  | succ n ih =>
    intro s h
    unfold rangeSum
    rw [byteAt_set_ne (by omega), ih (s + 1) (by omega)]

/-- The shared repair/validate argument for one checksum scope: summed range
`[s, e]`, stored byte at `t` strictly beyond the summed range. -/
lemma checksum_scope {b : Bytes} (s e t : Nat) (hse : s ≤ e) (het : e < t)
    (ht : t < b.length) :
    ∃ c, c < 256 ∧
      sumAndInvert8 b s e = .ok c ∧
      WriteU8Run b t c = (b.set t c, none) ∧
      sumAndInvert8 (b.set t c) s e = .ok c ∧
      ReadU8 (b.set t c) t = .ok c ∧
      (b.set t c).set t c = b.set t c := by
  refine ⟨255 - rangeSum b s (e + 1 - s) % 256, by omega, ?_, ?_, ?_, ?_, ?_⟩
  · unfold sumAndInvert8
    rw [if_neg (by omega), sumRange_eq _ _ (by omega)]
  · rw [writeU8Run_ok (by omega), Nat.mod_eq_of_lt (by omega)]
  · unfold sumAndInvert8
    rw [if_neg (by omega), sumRange_eq _ _ (by rw [List.length_set]; omega)]
    dsimp only
    rw [rangeSum_set_outside _ _ (by omega)]
  · rw [readU8_ok (by rw [List.length_set]; omega), byteAt_set_self ht]
  · rw [List.set_set]

lemma main_scope {b : Bytes} (h : MainChecksumOff < b.length) :
    ∃ b1, FixMainRun b = (b1, none) ∧ ValidateMain b1 = .ok true ∧
      FixMainRun b1 = (b1, none) := by
  obtain ⟨c, hc, hsum, hw, hsum2, hread, hset⟩ :=
    checksum_scope MainChecksumStart MainChecksumEnd MainChecksumOff
      (by decide) (by decide) h
  refine ⟨b.set MainChecksumOff c, ?_, ?_, ?_⟩
  · unfold FixMainRun ComputeMain
    rw [hsum]
    dsimp only
    exact hw
  · unfold ValidateMain ComputeMain
    rw [hsum2]
    dsimp only
    rw [hread]
    dsimp only
    simp
  · unfold FixMainRun ComputeMain
    rw [hsum2]
    dsimp only
    rw [writeU8Run_ok (by rw [List.length_set]; omega), Nat.mod_eq_of_lt hc, List.set_set]

lemma bankall_scope_2 {b : Bytes} (h : BankAllChecksumOffFor 2 < b.length) :
    ∃ b1, FixBankAllRun b 2 = (b1, none) ∧ ValidateBankAll b1 2 = .ok true ∧
      FixBankAllRun b1 2 = (b1, none) := by
  obtain ⟨c, hc, hsum, hw, hsum2, hread, hset⟩ :=
    checksum_scope Bank2Base (BankAllChecksumOffFor 2 - 1) (BankAllChecksumOffFor 2)
      (by decide) (by decide) h
  refine ⟨b.set (BankAllChecksumOffFor 2) c, ?_, ?_, ?_⟩
  · unfold FixBankAllRun ComputeBankAll
    rw [if_neg (by decide), if_pos rfl, hsum]
    dsimp only
    exact hw
  · unfold ValidateBankAll ComputeBankAll
    rw [hread]
    dsimp only
    rw [if_neg (by decide), if_pos rfl, hsum2]
    dsimp only
    simp
  · unfold FixBankAllRun ComputeBankAll
    rw [if_neg (by decide), if_pos rfl, hsum2]
    dsimp only
    rw [writeU8Run_ok (by rw [List.length_set]; omega), Nat.mod_eq_of_lt hc, List.set_set]

lemma bankall_scope_3 {b : Bytes} (h : BankAllChecksumOffFor 3 < b.length) :
    ∃ b1, FixBankAllRun b 3 = (b1, none) ∧ ValidateBankAll b1 3 = .ok true ∧
      FixBankAllRun b1 3 = (b1, none) := by
  obtain ⟨c, hc, hsum, hw, hsum2, hread, hset⟩ :=
    checksum_scope Bank3Base (BankAllChecksumOffFor 3 - 1) (BankAllChecksumOffFor 3)
      (by decide) (by decide) h
  refine ⟨b.set (BankAllChecksumOffFor 3) c, ?_, ?_, ?_⟩
  · unfold FixBankAllRun ComputeBankAll
    rw [if_neg (by decide), if_neg (by decide), hsum]
    dsimp only
    exact hw
  · unfold ValidateBankAll ComputeBankAll
    rw [hread]
    dsimp only
    rw [if_neg (by decide), if_neg (by decide), hsum2]
    dsimp only
    simp
  · unfold FixBankAllRun ComputeBankAll
    rw [if_neg (by decide), if_neg (by decide), hsum2]
    dsimp only
    rw [writeU8Run_ok (by rw [List.length_set]; omega), Nat.mod_eq_of_lt hc, List.set_set]

lemma box_scope_generic {b : Bytes} {i : Int} {base tbl k : Nat}
    (hbox : BoxBaseOffsetByIndex1to12 i = .ok (base + k * BoxBlockSize))
    (htbl : BankPerBoxChecksumsBaseOffsetForBoxIndex1to12 i = .ok tbl)
    (hwb : BoxWithinBank i = k)
    (het : base + k * BoxBlockSize + BoxBlockSize - 1 < tbl + k)
    (ht : tbl + k < b.length) :
    ∃ b1, FixBoxRun b i = (b1, none) ∧ ValidateBox b1 i = .ok true ∧
      FixBoxRun b1 i = (b1, none) := by
  obtain ⟨c, hc, hsum, hw, hsum2, hread, hset⟩ :=
    checksum_scope (base + k * BoxBlockSize) (base + k * BoxBlockSize + BoxBlockSize - 1)
      (tbl + k) (by simp only [BoxBlockSize]; omega) het ht
  refine ⟨b.set (tbl + k) c, ?_, ?_, ?_⟩
  · unfold FixBoxRun ComputeBox
    rw [htbl]
    dsimp only
    rw [hbox]
    dsimp only
    rw [hsum]
    dsimp only
    rw [hwb]
    exact hw
  · unfold ValidateBox ComputeBox
    rw [htbl]
    dsimp only
    rw [hwb, hread]
    dsimp only
    rw [hbox]
    dsimp only
    rw [hsum2]
    dsimp only
    simp
  · unfold FixBoxRun ComputeBox
    rw [htbl]
    dsimp only
    rw [hbox]
    dsimp only
    rw [hsum2]
    dsimp only
    rw [hwb, writeU8Run_ok (by rw [List.length_set]; omega), Nat.mod_eq_of_lt hc, List.set_set]

/-- Claim C3: for each of the three checksum scopes (main; bank-all for
banks 2 and 3; per-box for boxes 1..12) and every buffer in which the
relevant ranges are in bounds (equivalently, the stored checksum byte - the
furthest relevant offset - is in bounds): repair succeeds, validate then
returns true, and repairing a second time leaves the buffer (in particular
the stored checksum byte) exactly as after the first repair, because the
stored byte lies outside the summed range. -/
theorem checksum_repair_validate (b : Bytes) :
    (MainChecksumOff < b.length →
      ∃ b1, FixMainRun b = (b1, none) ∧ ValidateMain b1 = .ok true ∧
        FixMainRun b1 = (b1, none)) ∧
    (∀ bank : Int, (bank = 2 ∨ bank = 3) → BankAllChecksumOffFor bank < b.length →
      ∃ b1, FixBankAllRun b bank = (b1, none) ∧ ValidateBankAll b1 bank = .ok true ∧
        FixBankAllRun b1 bank = (b1, none)) ∧
    (∀ i : Int, 1 ≤ i → i ≤ 12 → BoxStoredChecksumOff i < b.length →
      ∃ b1, FixBoxRun b i = (b1, none) ∧ ValidateBox b1 i = .ok true ∧
        FixBoxRun b1 i = (b1, none)) := by
  refine ⟨main_scope, fun bank hbank h => ?_, fun i h1 h12 h => ?_⟩
  · rcases hbank with h2 | h3
    · subst h2
      exact bankall_scope_2 h
    · subst h3
      exact bankall_scope_3 h
  · by_cases h6 : i ≤ 6
    · have hbox : BoxBaseOffsetByIndex1to12 i = .ok (Box1Off + (i - 1).toNat * BoxBlockSize) := by
        unfold BoxBaseOffsetByIndex1to12
        rw [if_neg (by omega), if_pos h6]
      have htbl : BankPerBoxChecksumsBaseOffsetForBoxIndex1to12 i =
          .ok Bank2BoxChecksumsOff := by
        unfold BankPerBoxChecksumsBaseOffsetForBoxIndex1to12
        rw [if_neg (by omega), if_pos h6]
      have hwb : BoxWithinBank i = (i - 1).toNat := by
        unfold BoxWithinBank
        rw [if_pos h6]
      refine box_scope_generic hbox htbl hwb ?_ ?_
      · have hk : (i - 1).toNat ≤ 5 := by omega
        simp only [Box1Off, BoxBlockSize, Bank2BoxChecksumsOff]
        omega
      · unfold BoxStoredChecksumOff BoxWithinBank at h
        rw [if_pos h6, if_pos h6] at h
        exact h
    · have hbox : BoxBaseOffsetByIndex1to12 i = .ok (Box7Off + (i - 7).toNat * BoxBlockSize) := by
        unfold BoxBaseOffsetByIndex1to12
        rw [if_neg (by omega), if_neg h6]
      have htbl : BankPerBoxChecksumsBaseOffsetForBoxIndex1to12 i =
          .ok Bank3BoxChecksumsOff := by
        unfold BankPerBoxChecksumsBaseOffsetForBoxIndex1to12
        rw [if_neg (by omega), if_neg h6]
      have hwb : BoxWithinBank i = (i - 7).toNat := by
        unfold BoxWithinBank
        rw [if_neg h6]
      refine box_scope_generic hbox htbl hwb ?_ ?_
      · have hk : (i - 7).toNat ≤ 5 := by omega
        simp only [Box7Off, BoxBlockSize, Bank3BoxChecksumsOff]
        omega
      · unfold BoxStoredChecksumOff BoxWithinBank at h
        rw [if_neg h6, if_neg h6] at h
        exact h

/-- Witness for C3 on the all-zero 32 KiB buffer, with bank 2 and box 1. -/
theorem checksum_repair_validate_witness :
    (MainChecksumOff < (List.replicate 0x8000 0 : Bytes).length ∧
      ∃ b1, FixMainRun (List.replicate 0x8000 0) = (b1, none) ∧
        ValidateMain b1 = .ok true ∧ FixMainRun b1 = (b1, none)) ∧
    (((2 : Int) = 2 ∨ (2 : Int) = 3) ∧
      BankAllChecksumOffFor 2 < (List.replicate 0x8000 0 : Bytes).length ∧
      ∃ b1, FixBankAllRun (List.replicate 0x8000 0) 2 = (b1, none) ∧
        ValidateBankAll b1 2 = .ok true ∧ FixBankAllRun b1 2 = (b1, none)) ∧
    ((1 : Int) ≤ 1 ∧ (1 : Int) ≤ 12 ∧
      BoxStoredChecksumOff 1 < (List.replicate 0x8000 0 : Bytes).length ∧
      ∃ b1, FixBoxRun (List.replicate 0x8000 0) 1 = (b1, none) ∧
        ValidateBox b1 1 = .ok true ∧ FixBoxRun b1 1 = (b1, none)) := by
  have h := checksum_repair_validate (List.replicate 0x8000 0)
  have hm : MainChecksumOff < (List.replicate 0x8000 0 : Bytes).length := by
    rw [List.length_replicate]
    norm_num [MainChecksumOff]
  have hb : BankAllChecksumOffFor 2 < (List.replicate 0x8000 0 : Bytes).length := by
    rw [List.length_replicate]
    norm_num [BankAllChecksumOffFor, Bank2AllChecksumOff]
  have hx : BoxStoredChecksumOff 1 < (List.replicate 0x8000 0 : Bytes).length := by
    rw [List.length_replicate]
    norm_num [BoxStoredChecksumOff, BoxWithinBank, Bank2BoxChecksumsOff]
  exact ⟨⟨hm, h.1 hm⟩, ⟨Or.inl rfl, hb, h.2.1 2 (Or.inl rfl) hb⟩,
    ⟨by decide, by decide, hx, h.2.2 1 (by decide) (by decide) hx⟩⟩

/-! Hall-of-Fame scanner lemmas. -/

lemma scanSlots_eq_spec {b : Bytes} {recordOff : Nat} (hrec : recordOff + 96 ≤ b.length) :
    ∀ fuel j acc, j + fuel ≤ 6 → (j = 0 → acc = []) →
      scanSlots b recordOff j fuel acc = .ok (acc ++ specTeamWalk b recordOff j fuel) := by
  intro fuel
  induction fuel with
  | zero =>
    intro j acc h hj
    simp [scanSlots, specTeamWalk]
  | succ n ih =>
    intro j acc h hj
    have hj5 : j ≤ 5 := by omega
    unfold scanSlots specTeamWalk
    dsimp only
    rw [requireRange_ok (by simp only [HallOfFameMonEntrySize]; omega)]
    dsimp only
    rw [readU8_ok (by simp only [HallOfFameMonEntrySize]; omega)]
    dsimp only
    rw [readU8_ok (by simp only [HallOfFameMonEntrySize]; omega)]
    dsimp only
    by_cases hs : byteAt b (recordOff + j * HallOfFameMonEntrySize) = 0x00 ∨
        byteAt b (recordOff + j * HallOfFameMonEntrySize) = 0xFF
    · rw [if_pos hs, if_pos hs]
      simp
    · rw [if_neg hs, if_neg hs]
      by_cases hv : IsLikelyValidGen1SpeciesId (byteAt b (recordOff + j * HallOfFameMonEntrySize)) =
          false
      · rw [if_pos hv, if_pos (Or.inl hv)]
        by_cases hj0 : j = 0
        · rw [if_pos hj0, if_pos hj0]
          simp [hj hj0]
        · rw [if_neg hj0, if_neg hj0]
          exact ih (j + 1) acc (by omega) (by omega)
      · rw [if_neg hv]
        by_cases hl : byteAt b (recordOff + j * HallOfFameMonEntrySize + 1) < 1 ∨
            100 < byteAt b (recordOff + j * HallOfFameMonEntrySize + 1)
        · rw [if_pos hl, if_pos (Or.inr (Or.imp_right Or.inl hl))]
          by_cases hj0 : j = 0
          · rw [if_pos hj0, if_pos hj0]
            simp [hj hj0]
          · rw [if_neg hj0, if_neg hj0]
            exact ih (j + 1) acc (by omega) (by omega)
        · rw [if_neg hl]
          rw [decodeName_ok (by simp only [HallOfFameMonEntrySize]; omega)]
          dsimp only
          by_cases hnm : NameLooksReasonable
              (decodeLoop ((b.drop (recordOff + j * HallOfFameMonEntrySize + 2)).take 0x0B)) =
              false
          · rw [if_pos hnm, if_pos (Or.inr (Or.inr (Or.inr hnm)))]
            by_cases hj0 : j = 0
            · rw [if_pos hj0, if_pos hj0]
              simp [hj hj0]
            · rw [if_neg hj0, if_neg hj0]
              exact ih (j + 1) acc (by omega) (by omega)
          · have hcond : ¬ (IsLikelyValidGen1SpeciesId
                  (byteAt b (recordOff + j * HallOfFameMonEntrySize)) = false ∨
                byteAt b (recordOff + j * HallOfFameMonEntrySize + 1) < 1 ∨
                100 < byteAt b (recordOff + j * HallOfFameMonEntrySize + 1) ∨
                NameLooksReasonable (decodeLoop
                  ((b.drop (recordOff + j * HallOfFameMonEntrySize + 2)).take 0x0B)) = false) := by
              rintro (hx | hx | hx | hx)
              · exact hv hx
              · exact hl (Or.inl hx)
              · exact hl (Or.inr hx)
              · exact hnm hx
            rw [if_neg hnm, if_neg hcond]
            rw [ih (j + 1) _ (by omega) (by omega)]
            simp

lemma scanRecords_eq {b : Bytes} (hreg : HallOfFameOff + HallOfFameLen ≤ b.length) :
    ∀ fuel i acc, i + fuel ≤ 50 →
      scanRecords b i fuel acc = .ok (acc ++ hofValidList b i fuel) := by
  intro fuel
  induction fuel with
  | zero =>
    intro i acc h
    simp [scanRecords, hofValidList]
  | succ n ih =>
    intro i acc h
    have hi49 : i ≤ 49 := by omega
    have hrec : HallOfFameOff + i * HallOfFameRecordSize + 96 ≤ b.length := by
      simp only [HallOfFameOff, HallOfFameLen, HallOfFameRecordSize] at hreg ⊢
      omega
    unfold scanRecords hofValidList
    dsimp only
    rw [requireRange_ok (by simp only [HallOfFameRecordSize] at hrec ⊢; omega)]
    dsimp only
    rw [scanSlots_eq_spec hrec HallOfFameMonsPerRecord 0 [] (by decide) (fun _ => rfl)]
    dsimp only
    rw [List.nil_append]
    simp only [teamAtRecord]
    by_cases he : (specTeamWalk b (HallOfFameOff + i * HallOfFameRecordSize) 0
        HallOfFameMonsPerRecord).isEmpty
    · rw [if_pos he, if_pos he]
      exact ih (i + 1) acc (by omega)
    · rw [if_neg he, if_neg he]
      rw [ih (i + 1) _ (by omega)]
      simp

lemma renumberFrom_length : ∀ (l : List HallOfFameEntry) (k : Nat),
    (renumberFrom k l).length = l.length := by
  intro l
  induction l with
  | nil => intro k; rfl
  | cons e rest ih =>
    intro k
    simp [renumberFrom, ih (k + 1)]

lemma renumberFrom_getElem? : ∀ (l : List HallOfFameEntry) (k j : Nat),
    (renumberFrom k l)[j]? = (l[j]?).map fun e => ⟨k + j, e.team⟩ := by
  intro l
  induction l with
  | nil =>
    intro k j
    simp [renumberFrom]
  | cons e rest ih =>
    intro k j
    cases j with
    | zero => simp [renumberFrom]
    | succ m =>
      rw [show k + (m + 1) = (k + 1) + m from by omega]
      simp only [renumberFrom, List.getElem?_cons_succ]
      exact ih (k + 1) m

lemma renumberFrom_one_getElem? (l : List HallOfFameEntry) (j : Nat) :
    (renumberFrom 1 l)[j]? = (l[j]?).map fun e => ⟨j + 1, e.team⟩ := by
  rw [renumberFrom_getElem?, Nat.add_comm 1 j]

lemma hofValidList_entryIndex_mem {b : Bytes} : ∀ fuel i k,
    (∃ e ∈ hofValidList b i fuel, e.entryIndex = k + 1) ↔
      (i ≤ k ∧ k < i + fuel ∧ teamAtRecord b k ≠ []) := by
  intro fuel
  induction fuel with
  | zero =>
    intro i k
    unfold hofValidList
    constructor
    · rintro ⟨e, he, -⟩
      cases he
    · rintro ⟨h1, h2, -⟩
      omega
  | succ n ih =>
    intro i k
    unfold hofValidList
    by_cases he : (teamAtRecord b i).isEmpty
    · rw [if_pos he, ih (i + 1) k]
      constructor
      · rintro ⟨h1, h2, h3⟩
        exact ⟨by omega, by omega, h3⟩
      · rintro ⟨h1, h2, h3⟩
        have hik : i ≠ k := by
          rintro rfl
          rw [List.isEmpty_iff] at he
          exact h3 he
        exact ⟨by omega, by omega, h3⟩
    · rw [if_neg he]
      constructor
      · rintro ⟨e, hmem, hidx⟩
        rcases List.mem_cons.mp hmem with rfl | hmem'
        · have hik : i = k := by
            simpa using hidx
          subst hik
          refine ⟨by omega, by omega, ?_⟩
          intro hnil
          exact he (List.isEmpty_iff.mpr hnil)
        · have := (ih (i + 1) k).mp ⟨e, hmem', hidx⟩
          exact ⟨by omega, by omega, this.2.2⟩
      · rintro ⟨h1, h2, h3⟩
        by_cases hik : i = k
        · subst hik
          exact ⟨⟨i + 1, teamAtRecord b i⟩, List.mem_cons_self _ _, rfl⟩
        · obtain ⟨e, hmem, hidx⟩ := (ih (i + 1) k).mpr ⟨by omega, by omega, h3⟩
          exact ⟨e, List.mem_cons_of_mem _ hmem, hidx⟩

/-- Claim C2: per-record scan behaviour.  For every buffer whose
Hall-of-Fame region is in range and every record index `i < 50`: the
record's slot loop returns exactly the spec-side walk (`specTeamWalk`:
member slots read in order; a species byte of 0 or 0xFF stops the record's
remaining slots; a slot failing the species, level, or name check aborts the
record with no members when it is slot 0 and is skipped otherwise); and the
record contributes an entry to the scanned valid list if and only if it
accumulated at least one valid member. -/
theorem hof_record_scan_spec (b : Bytes)
    (hreg : HallOfFameOff + HallOfFameLen ≤ b.length) (i : Nat) (hi : i < 50) :
    scanSlots b (HallOfFameOff + i * HallOfFameRecordSize) 0 HallOfFameMonsPerRecord [] =
      .ok (teamAtRecord b i) ∧
    (∀ V, scanRecords b 0 HallOfFameMaxRecords [] = .ok V →
      ((∃ e ∈ V, e.entryIndex = i + 1) ↔ teamAtRecord b i ≠ [])) := by
  have hrec : HallOfFameOff + i * HallOfFameRecordSize + 96 ≤ b.length := by
    simp only [HallOfFameOff, HallOfFameLen, HallOfFameRecordSize] at hreg ⊢
    omega
  constructor
  · have hs := scanSlots_eq_spec hrec HallOfFameMonsPerRecord 0 [] (by decide) (fun _ => rfl)
    rw [List.nil_append] at hs
    exact hs
  · intro V hV
    rw [scanRecords_eq hreg HallOfFameMaxRecords 0 [] (by decide), List.nil_append] at hV
    obtain rfl : hofValidList b 0 HallOfFameMaxRecords = V := Except.ok.inj hV
    rw [hofValidList_entryIndex_mem HallOfFameMaxRecords 0 i]
    constructor
    · rintro ⟨-, -, h3⟩
      exact h3
    · intro h3
      exact ⟨by omega, by simp only [HallOfFameMaxRecords]; omega, h3⟩

/-- Witness for C2 on the all-zero buffer covering exactly the Hall-of-Fame
region, record 0. -/
theorem hof_record_scan_spec_witness :
    (HallOfFameOff + HallOfFameLen ≤ (List.replicate 0x1858 0 : Bytes).length ∧
      (0 : Nat) < 50) ∧
    (scanSlots (List.replicate 0x1858 0) (HallOfFameOff + 0 * HallOfFameRecordSize) 0
        HallOfFameMonsPerRecord [] = .ok (teamAtRecord (List.replicate 0x1858 0) 0) ∧
      (∀ V, scanRecords (List.replicate 0x1858 0) 0 HallOfFameMaxRecords [] = .ok V →
        ((∃ e ∈ V, e.entryIndex = 0 + 1) ↔ teamAtRecord (List.replicate 0x1858 0) 0 ≠ []))) := by
  have hreg : HallOfFameOff + HallOfFameLen ≤ (List.replicate 0x1858 0 : Bytes).length := by
    rw [List.length_replicate]
    norm_num [HallOfFameOff, HallOfFameLen]
  exact ⟨⟨hreg, by decide⟩, hof_record_scan_spec (List.replicate 0x1858 0) hreg 0 (by decide)⟩

/-- Claim C1: post-scan windowing.  For every buffer whose Hall-of-Fame
region (including the count-hint byte) is in range: with `h` the count-hint
byte clamped to `[0, 50]` and `V` the scanned valid list in scan order,
`GetHallOfFame` returns the empty list when `h = 0`; all of `V` renumbered
`1..|V|` in scan order when `|V| ≤ h`; and exactly the last `h` elements of
`V`, in order, renumbered `1..h`, when `|V| > h`. -/
theorem hof_windowing_spec (b : Bytes) (hcnt : HallOfFameRecordCountOff < b.length) :
    ∃ V R, scanRecords b 0 HallOfFameMaxRecords [] = .ok V ∧ GetHallOfFame b = .ok R ∧
      (min (byteAt b HallOfFameRecordCountOff) HallOfFameMaxRecords = 0 → R = []) ∧
      (min (byteAt b HallOfFameRecordCountOff) HallOfFameMaxRecords ≠ 0 →
        V.length ≤ min (byteAt b HallOfFameRecordCountOff) HallOfFameMaxRecords →
        R.length = V.length ∧ ∀ j, R[j]? = (V[j]?).map fun e => ({ entryIndex := j + 1, team := e.team } : HallOfFameEntry)) ∧
      (min (byteAt b HallOfFameRecordCountOff) HallOfFameMaxRecords ≠ 0 →
        min (byteAt b HallOfFameRecordCountOff) HallOfFameMaxRecords < V.length →
        R.length = min (byteAt b HallOfFameRecordCountOff) HallOfFameMaxRecords ∧
        ∀ j, R[j]? = (V[V.length - min (byteAt b HallOfFameRecordCountOff)
          HallOfFameMaxRecords + j]?).map
          fun e => ({ entryIndex := j + 1, team := e.team } : HallOfFameEntry)) := by
  have hreg : HallOfFameOff + HallOfFameLen ≤ b.length := by
    simp only [HallOfFameOff, HallOfFameLen, HallOfFameRecordCountOff] at hcnt ⊢
    omega
  have hscan := scanRecords_eq hreg HallOfFameMaxRecords 0 [] (by decide)
  rw [List.nil_append] at hscan
  set hint := min (byteAt b HallOfFameRecordCountOff) HallOfFameMaxRecords with hhint
  have hget : GetHallOfFame b =
      (if hint = 0 then .ok []
       else if (hofValidList b 0 HallOfFameMaxRecords).length ≤ hint then
         .ok (renumberFrom 1 (hofValidList b 0 HallOfFameMaxRecords))
       else
         .ok (renumberFrom 1 ((hofValidList b 0 HallOfFameMaxRecords).drop
           ((hofValidList b 0 HallOfFameMaxRecords).length - hint)))) := by
    unfold GetHallOfFame
    rw [readU8_ok (by omega)]
    dsimp only
    rw [requireRange_ok hreg]
    dsimp only
    rw [hscan]
  by_cases h0 : hint = 0
  · refine ⟨hofValidList b 0 HallOfFameMaxRecords, [], hscan, ?_, fun _ => rfl,
      fun hne _ => absurd h0 hne, fun hne _ => absurd h0 hne⟩
    rw [hget, if_pos h0]
  · by_cases hle : (hofValidList b 0 HallOfFameMaxRecords).length ≤ hint
    · refine ⟨hofValidList b 0 HallOfFameMaxRecords,
        renumberFrom 1 (hofValidList b 0 HallOfFameMaxRecords), hscan, ?_,
        fun hz => absurd hz h0, ?_, ?_⟩
      · rw [hget, if_neg h0, if_pos hle]
      · intro _ _
        exact ⟨renumberFrom_length _ 1, fun j => renumberFrom_one_getElem? _ j⟩
      · intro _ hlt
        exact absurd hlt (by omega)
    · refine ⟨hofValidList b 0 HallOfFameMaxRecords,
        renumberFrom 1 ((hofValidList b 0 HallOfFameMaxRecords).drop
          ((hofValidList b 0 HallOfFameMaxRecords).length - hint)), hscan, ?_,
        fun hz => absurd hz h0, ?_, ?_⟩
      · rw [hget, if_neg h0, if_neg hle]
      · intro _ hle'
        exact absurd hle' hle
      · intro _ hlt
        constructor
        · rw [renumberFrom_length, List.length_drop]
          omega
        · intro j
          rw [renumberFrom_one_getElem?, List.getElem?_drop]

/-- Witness for C1 on the all-zero buffer that covers the count-hint byte. -/
theorem hof_windowing_spec_witness :
    HallOfFameRecordCountOff < (List.replicate 0x284F 0 : Bytes).length ∧
    (∃ V R, scanRecords (List.replicate 0x284F 0) 0 HallOfFameMaxRecords [] = .ok V ∧
      GetHallOfFame (List.replicate 0x284F 0) = .ok R ∧
      (min (byteAt (List.replicate 0x284F 0) HallOfFameRecordCountOff) HallOfFameMaxRecords = 0 →
        R = []) ∧
      (min (byteAt (List.replicate 0x284F 0) HallOfFameRecordCountOff) HallOfFameMaxRecords ≠ 0 →
        V.length ≤ min (byteAt (List.replicate 0x284F 0) HallOfFameRecordCountOff)
          HallOfFameMaxRecords →
        R.length = V.length ∧ ∀ j, R[j]? = (V[j]?).map fun e => ({ entryIndex := j + 1, team := e.team } : HallOfFameEntry)) ∧
      (min (byteAt (List.replicate 0x284F 0) HallOfFameRecordCountOff) HallOfFameMaxRecords ≠ 0 →
        min (byteAt (List.replicate 0x284F 0) HallOfFameRecordCountOff) HallOfFameMaxRecords <
          V.length →
        R.length = min (byteAt (List.replicate 0x284F 0) HallOfFameRecordCountOff)
          HallOfFameMaxRecords ∧
        ∀ j, R[j]? = (V[V.length - min (byteAt (List.replicate 0x284F 0)
          HallOfFameRecordCountOff) HallOfFameMaxRecords + j]?).map
            fun e => ({ entryIndex := j + 1, team := e.team } : HallOfFameEntry))) := by
  have hcnt : HallOfFameRecordCountOff < (List.replicate 0x284F 0 : Bytes).length := by
    rw [List.length_replicate]
    norm_num [HallOfFameRecordCountOff]
  exact ⟨hcnt, hof_windowing_spec (List.replicate 0x284F 0) hcnt⟩
